import Mathlib

/-
Verification of the ds_task_ai_news backend against its design document.

The Python sources under src/backend are embedded shallowly:
- Python dicts holding one article become the Article structure below;
  absent string keys are modelled as the empty string, optional
  enrichment fields as Option values.
- Python floats (sentence scores, reading-time division) are modelled as
  exact rationals; for the quantities appearing here (1/(i+1), 1/2 and
  wordCount/200) the float comparisons and the rational ones agree for
  every input of remotely realistic size.
- The Python built-in sorted is a stable sort; stableSortBy below is a
  stable insertion sort, which produces exactly the same list for any
  total preorder, so it is a faithful model of every sorted(...) call.
- Fallible Python code is modelled with Option or Except; external
  collaborators (requests, urlparse, nltk sent_tokenize, the embedding
  service, the LLM client) are parameters of the embedded functions.
- hashlib.md5 is embedded as a full executable MD5 over the UTF-8 bytes
  of the input, matching generate_article_id in news_fetcher.py.
-/

/-! General helpers: stable sort, word counting, list utilities. -/

/-- Stable insertion step: x came later in the input than every element of l,
so x is placed after every element that strictly precedes it under le and
before the first element that does not. -/
def stableIns {α : Type} (le : α → α → Bool) (x : α) : List α → List α
  | [] => [x]
  | y :: ys => if le y x && !(le x y) then y :: stableIns le x ys else x :: y :: ys

/-- Stable sort: the unique stable ordering induced by the total preorder le.
This models the Python built-in sorted (Timsort, also stable). -/
def stableSortBy {α : Type} (le : α → α → Bool) (l : List α) : List α :=
  l.foldr (stableIns le) []

/-- Word counter over a character list: counts maximal runs of
non-whitespace characters, as the Python method str.split() does. -/
def countWordsAux : List Char → Bool → Nat
  | [], inWord => if inWord then 1 else 0
  | c :: cs, inWord =>
    if c.isWhitespace then (if inWord then 1 else 0) + countWordsAux cs false
    else countWordsAux cs true

/-- Number of words of a string, the model of len(s.split()) in Python. -/
def pyWordCount (s : String) : Nat := countWordsAux s.data false

/-- Lexicographic comparison of character lists by code point, the model of
the Python string comparison used as a sort key. -/
def charListLe : List Char → List Char → Bool
  | [], _ => true
  | _ :: _, [] => false
  | c :: cs, d :: ds => if c = d then charListLe cs ds else decide (c < d)

/-- Index of the first occurrence of s in l, the model of the Python
list.index call in the summarizer (only ever applied to present elements). -/
def firstIdx (l : List String) (s : String) : Nat :=
  match l with
  | [] => 0
  | x :: xs => if x = s then 0 else 1 + firstIdx xs s

/-- Joins strings with single spaces, the model of the join method. -/
def joinSpace : List String → String
  | [] => ""
  | [s] => s
  | s :: rest => s ++ " " ++ joinSpace rest

/-- Round-half-to-even on rationals, the rounding rule of the Python
built-in round. -/
def pyRound (q : ℚ) : ℤ :=
  if q - ⌊q⌋ < 1 / 2 then ⌊q⌋
  else if q - ⌊q⌋ > 1 / 2 then ⌊q⌋ + 1
  else if ⌊q⌋ % 2 = 0 then ⌊q⌋ else ⌊q⌋ + 1

/-- Sequencing of fallible lookups over a list: some of all results, or
none as soon as one lookup fails. This models a Python list comprehension
whose body may raise. -/
def traverseOpt {α β : Type} (f : α → Option β) : List α → Option (List β)
  | [] => some []
  | x :: xs =>
    match f x, traverseOpt f xs with
    | some y, some ys => some (y :: ys)
    | _, _ => none

/-- Python list indexing: nonnegative indices from the front, negative
indices from the back, out-of-range raises (modelled as none). -/
def pyGet {α : Type} (l : List α) (i : ℤ) : Option α :=
  if 0 ≤ i then l.get? i.toNat
  else if (-i).toNat ≤ l.length then l.get? (l.length - (-i).toNat) else none

/-! The article record. One Python dict per article; raw feed fields are
plain strings (absent keys read as the empty string through dict.get),
enrichment-added keys are Option fields. -/

structure Article where
  id : String := ""
  title : String := ""
  content : String := ""
  date : String := ""
  link : String := ""
  source : String := ""
  processed : Bool := false
  full_content : Option String := none
  domain : Option String := none
  summary : Option String := none
  reading_time_minutes : Option Nat := none
  processed_timestamp : Option String := none
  processing_error : Option String := none
deriving DecidableEq

/-! Extractive summarizer, from NewsFetcher._generate_summary. -/

/-- Score of the sentence at position i: positional bias 1/(i+1) plus a
flat 1/2 bonus when the word count lies in [10, 30]. -/
def sentenceScore (i : Nat) (s : String) : ℚ :=
  1 / ((i : ℚ) + 1) + (if 10 ≤ pyWordCount s ∧ pyWordCount s ≤ 30 then 1 / 2 else 0)

/-- Comparison placing higher scores first; ties keep input order under the
stable sort, as sorted(..., reverse=True) does. -/
def scoreDescLe (x y : ℚ × String) : Bool := decide (y.1 ≤ x.1)

/-- Comparison by first-occurrence position of the sentence text, the key
function sentences.index used to restore narrative order. -/
def idxLe (sentences : List String) (x y : ℚ × String) : Bool :=
  decide (firstIdx sentences x.2 ≤ firstIdx sentences y.2)

/-- Sentence selection of the summarizer: score every sentence, take the
top maxS by score (stable descending sort), then reorder the selection by
the first-occurrence index of each sentence text. -/
def summarySelect (sentences : List String) (maxS : Nat) : List String :=
  let scored := sentences.enum.map (fun p => (sentenceScore p.1 p.2, p.2))
  let top := (stableSortBy scoreDescLe scored).take maxS
  (stableSortBy (idxLe sentences) top).map Prod.snd

/-- NewsFetcher._generate_summary. The sentence tokenizer (nltk
sent_tokenize) is an external collaborator passed as tok; when it raises,
the except branch truncates the text to 500 characters with an ellipsis. -/
def generate_summary (tok : String → Except String (List String))
    (text : String) (maxS : Nat) : String :=
  match tok text with
  | .error _ =>
    if text.data.length > 500 then String.mk (text.data.take 500) ++ "..." else text
  | .ok sentences =>
    if sentences.length ≤ maxS then text
    else joinSpace (summarySelect sentences maxS)

/-! MD5, the model of hashlib.md5(...).hexdigest() over UTF-8 bytes. -/

/-- UTF-8 encoding of a single character as byte values. -/
def charUtf8 (c : Char) : List Nat :=
  let n := c.toNat
  if n < 128 then [n]
  else if n < 2048 then [192 + n / 64, 128 + n % 64]
  else if n < 65536 then [224 + n / 4096, 128 + n / 64 % 64, 128 + n % 64]
  else [240 + n / 262144, 128 + n / 4096 % 64, 128 + n / 64 % 64, 128 + n % 64]

/-- UTF-8 bytes of a string, the model of s.encode in Python. -/
def utf8Bytes (s : String) : List Nat := s.data.flatMap charUtf8

def M32 : Nat := 4294967296

/-- Bitwise complement within 32 bits. -/
def bnot32 (x : Nat) : Nat := 4294967295 - x

/-- Left rotation of a 32-bit value. -/
def rotl32 (x s : Nat) : Nat := (x * 2 ^ s) % M32 + x / 2 ^ (32 - s)

/-- Little-endian bytes of a 64-bit length field. -/
def le8 (n : Nat) : List Nat :=
  [n % 256, n / 256 % 256, n / 65536 % 256, n / 16777216 % 256,
   n / 4294967296 % 256, n / 1099511627776 % 256,
   n / 281474976710656 % 256, n / 72057594037927936 % 256]

/-- Little-endian bytes of one 32-bit word. -/
def wordLE (x : Nat) : List Nat :=
  [x % 256, x / 256 % 256, x / 65536 % 256, x / 16777216 % 256]

/-- MD5 padding: a 1 bit, zeros to 56 mod 64, then the bit length. -/
def md5Pad (msg : List Nat) : List Nat :=
  let n := msg.length
  msg ++ [128] ++ List.replicate ((119 - n % 64) % 64) 0 ++ le8 ((8 * n) % 2 ^ 64)

/-- Sine-derived MD5 round constants. -/
def md5K : List Nat :=
  [3614090360, 3905402710, 606105819, 3250441966, 4118548399, 1200080426,
   2821735955, 4249261313, 1770035416, 2336552879, 4294925233, 2304563134,
   1804603682, 4254626195, 2792965006, 1236535329, 4129170786, 3225465664,
   643717713, 3921069994, 3593408605, 38016083, 3634488961, 3889429448,
   568446438, 3275163606, 4107603335, 1163531501, 2850285829, 4243563512,
   1735328473, 2368359562, 4294588738, 2272392833, 1839030562, 4259657740,
   2763975236, 1272893353, 4139469664, 3200236656, 681279174, 3936430074,
   3572445317, 76029189, 3654602809, 3873151461, 530742520, 3299628645,
   4096336452, 1126891415, 2878612391, 4237533241, 1700485571, 2399980690,
   4293915773, 2240044497, 1873313359, 4264355552, 2734768916, 1309151649,
   4149444226, 3174756917, 718787259, 3951481745]

/-- MD5 per-round left-rotation amounts. -/
def md5S : List Nat :=
  [7, 12, 17, 22, 7, 12, 17, 22, 7, 12, 17, 22, 7, 12, 17, 22,
   5, 9, 14, 20, 5, 9, 14, 20, 5, 9, 14, 20, 5, 9, 14, 20,
   4, 11, 16, 23, 4, 11, 16, 23, 4, 11, 16, 23, 4, 11, 16, 23,
   6, 10, 15, 21, 6, 10, 15, 21, 6, 10, 15, 21, 6, 10, 15, 21]

/-- Nonlinear mixing function of round i. -/
def md5F (i b c d : Nat) : Nat :=
  if i < 16 then Nat.lor (Nat.land b c) (Nat.land (bnot32 b) d)
  else if i < 32 then Nat.lor (Nat.land d b) (Nat.land (bnot32 d) c)
  else if i < 48 then Nat.xor (Nat.xor b c) d
  else Nat.xor c (Nat.lor b (bnot32 d))

/-- Message-word index of round i. -/
def md5G (i : Nat) : Nat :=
  if i < 16 then i
  else if i < 32 then (5 * i + 1) % 16
  else if i < 48 then (3 * i + 5) % 16
  else (7 * i) % 16

/-- One MD5 round step on the running state (a, b, c, d). -/
def md5Step (m : List Nat) (st : Nat × Nat × Nat × Nat) (i : Nat) :
    Nat × Nat × Nat × Nat :=
  let (a, b, c, d) := st
  let f := (md5F i b c d + a + md5K.getD i 0 + m.getD (md5G i) 0) % M32
  (d, (b + rotl32 f (md5S.getD i 0)) % M32, b, c)

/-- The sixteen 32-bit little-endian words of one 64-byte chunk. -/
def chunkWords (chunk : List Nat) : List Nat :=
  (List.range 16).map (fun j =>
    chunk.getD (4 * j) 0 + 256 * chunk.getD (4 * j + 1) 0 +
    65536 * chunk.getD (4 * j + 2) 0 + 16777216 * chunk.getD (4 * j + 3) 0)

/-- One 64-byte chunk folded into the hash state. -/
def md5Chunk (st : Nat × Nat × Nat × Nat) (chunk : List Nat) :
    Nat × Nat × Nat × Nat :=
  let m := chunkWords chunk
  let (a, b, c, d) := st
  let (a2, b2, c2, d2) := (List.range 64).foldl (md5Step m) (a, b, c, d)
  ((a + a2) % M32, (b + b2) % M32, (c + c2) % M32, (d + d2) % M32)

/-- Splits a padded message into 64-byte chunks. -/
def chunk64 (l : List Nat) : List (List Nat) :=
  if h : l = [] then [] else
    l.take 64 :: chunk64 (l.drop 64)
termination_by l.length
decreasing_by
  simp only [List.length_drop]
  have hp : 0 < l.length := List.length_pos.mpr h
  omega

/-- The 16 digest bytes of the MD5 of a byte sequence. -/
def md5Bytes (msg : List Nat) : List Nat :=
  let st := (chunk64 (md5Pad msg)).foldl md5Chunk
    (1732584193, 4023233417, 2562383102, 271733878)
  wordLE st.1 ++ wordLE st.2.1 ++ wordLE st.2.2.1 ++ wordLE st.2.2.2

/-- The sixteen lowercase hexadecimal digit characters, in value order. -/
def hexDigits : List Char := "0123456789abcdef".data

/-- Lowercase hexadecimal digit of a value below sixteen. -/
def hexChar (n : Nat) : Char := hexDigits.getD n '0'

/-- Two hex characters of one byte. -/
def byteHex (b : Nat) : List Char := [hexChar (b / 16 % 16), hexChar (b % 16)]

/-- Hexadecimal MD5 digest of a string, the model of
hashlib.md5(x.encode(...)).hexdigest(). -/
def md5Hex (s : String) : String :=
  String.mk ((md5Bytes (utf8Bytes s)).flatMap byteHex)

/-- NewsFetcher.generate_article_id: the MD5 hex digest of the
concatenation of title and date. -/
def generate_article_id (title date : String) : String := md5Hex (title ++ date)

/-! Vector store, from vector_store.py. The faiss IndexFlatL2 contents are
the stored embedding rows; search is exact, by squared Euclidean distance
(same ordering as Euclidean distance), and when fewer than k rows exist
faiss pads the returned label array with -1 entries. -/

structure VectorStore where
  dimension : Nat
  embeddings : List (List ℚ)
  article_ids : List String

/-- A fresh empty index of the configured dimension, as built in
VectorStore.__init__ and VectorStore.clear. -/
def VectorStore.empty (d : Nat) : VectorStore :=
  { dimension := d, embeddings := [], article_ids := [] }

/-- VectorStore.clear: replaces the index by a fresh one of the same
dimension and empties the id list. -/
def VectorStore.clear (s : VectorStore) : VectorStore := VectorStore.empty s.dimension

/-- VectorStore.add_articles. The id list is extended first, mirroring the
loop that appends every id before numpy conversion and index.add run; the
embedding rows are added only when the batch is nonempty and every row has
the configured dimension, otherwise numpy or faiss raises and the returned
flag is false (with the ids already appended). -/
def VectorStore.add_articles (s : VectorStore) (batch : List (String × List ℚ)) :
    VectorStore × Bool :=
  let s1 := { s with article_ids := s.article_ids ++ batch.map Prod.fst }
  if !batch.isEmpty && batch.all (fun p => p.2.length == s.dimension) then
    ({ s1 with embeddings := s.embeddings ++ batch.map Prod.snd }, true)
  else (s1, false)

/-- Squared Euclidean distance between two vectors, the ranking quantity of
IndexFlatL2. -/
def sqDist (a b : List ℚ) : ℚ := ((a.zip b).map (fun p => (p.1 - p.2) ^ 2)).sum

/-- Comparison of candidate row indices by (distance, index), the order in
which exact search reports neighbors. -/
def distLex (ds : List ℚ) (i j : Nat) : Bool :=
  decide (ds.getD i 0 < ds.getD j 0 ∨ (ds.getD i 0 = ds.getD j 0 ∧ i ≤ j))

/-- All row indices ordered by ascending distance to the query. -/
def nearestOrder (embs : List (List ℚ)) (q : List ℚ) : List Nat :=
  stableSortBy (distLex (embs.map (sqDist q))) (List.range embs.length)

/-- The label row returned by index.search for one query: the first k
indices in distance order, padded with -1 when the index holds fewer than
k rows. -/
def searchIndices (embs : List (List ℚ)) (q : List ℚ) (k : Nat) : List ℤ :=
  ((nearestOrder embs q).take k).map Int.ofNat ++
    List.replicate (k - embs.length) (-1)

/-- VectorStore.search_similar: maps the label row through Python list
indexing on article_ids; a -1 label reads article_ids[-1], the last stored
id, and raises IndexError (none) on an empty id list. A query of the wrong
dimension makes faiss raise (none). -/
def VectorStore.search_similar (s : VectorStore) (q : List ℚ) (k : Nat) :
    Option (List String) :=
  if q.length = s.dimension then
    traverseOpt (pyGet s.article_ids) (searchIndices s.embeddings q k)
  else none

/-- The stored ids in ascending order of distance to the query, used to
state what search_similar returns. -/
def nearestIds (s : VectorStore) (q : List ℚ) : List String :=
  (nearestOrder s.embeddings q).map (fun i => s.article_ids.getD i "")

/-! Operation sequences over the vector store, for the index invariant. -/

inductive VOp where
  | clearOp : VOp
  | addBatch : List (String × List ℚ) → VOp

/-- Effect of one operation on the store (the returned success flag of an
add is dropped, as main.py drops it). -/
def VectorStore.runOp (s : VectorStore) : VOp → VectorStore
  | .clearOp => s.clear
  | .addBatch b => (s.add_articles b).1

/-- Effect of an operation sequence. -/
def runOps (s : VectorStore) (ops : List VOp) : VectorStore :=
  ops.foldl VectorStore.runOp s

/-- An operation the store accepts: clears always, adds when the batch is
nonempty and every row has the configured dimension. -/
def goodOp (dim : Nat) : VOp → Bool
  | .clearOp => true
  | .addBatch b => !b.isEmpty && b.all (fun p => p.2.length == dim)

/-- The (id, embedding) pairs the store should hold after a sequence of
accepted operations: all batch entries since the last clear, in order. -/
def opPairs (ops : List VOp) : List (String × List ℚ) :=
  ops.foldl (fun acc op =>
    match op with
    | .clearOp => []
    | .addBatch b => acc ++ b) []

/-! Recommender, from recommender.py. -/

/-- Lookup in the dict built by the comprehension keyed on article ids;
later list entries overwrite earlier ones. -/
def dictGet (articles : List Article) (aid : String) : Option Article :=
  articles.reverse.find? (fun a => a.id == aid)

/-- Recommender.get_similar_articles. The embedding collaborator is the
parameter embedQ (a hard failure there, or in search, or a returned id
absent from the corpus dict, raises: none). Unknown query ids return the
empty list without error. -/
def Recommender.get_similar_articles (vs : VectorStore)
    (embedQ : Article → Option (List ℚ)) (article_id : String)
    (articles : List Article) (k : Nat) : Option (List Article) :=
  match dictGet articles article_id with
  | none => some []
  | some qa =>
    match embedQ qa with
    | none => none
    | some emb =>
      match vs.search_similar emb (k + 1) with
      | none => none
      | some ids =>
        match traverseOpt (dictGet articles) (ids.filter (fun aid => aid ≠ article_id)) with
        | none => none
        | some sims => some (sims.take k)

/-! Content enrichment, from NewsFetcher._process_article. External
collaborators: fc models _fetch_full_content (requests + BeautifulSoup,
every failure caught inside and turned into None); nl models
urlparse(...).netloc, the one call in the try body that can raise; tok
models nltk sent_tokenize, whose failures _generate_summary catches
itself; now models datetime.utcnow().isoformat(). -/

/-- The try body of _process_article: builds the enriched copy, raising
only when the netloc extraction raises. -/
def processBody (fc : String → Option String) (nl : String → Except String String)
    (tok : String → Except String (List String)) (now : String)
    (article : Article) : Except String Article :=
  let a1 :=
    if article.content.data.length < 500 ∧ article.link ≠ "" then
      match fc article.link with
      | some full => { article with full_content := some full }
      | none => article
    else article
  match (if article.source ≠ "" then nl article.source else Except.ok "unknown") with
  | .error e => .error e
  | .ok dv =>
    let a2 := { a1 with domain := some dv }
    let a3 :=
      match a2.full_content with
      | some full => { a2 with summary := some (generate_summary tok full 3) }
      | none => { a2 with summary := some a2.content }
    let text := a3.full_content.getD a3.content
    let wc := pyWordCount text
    let a4 := { a3 with reading_time_minutes := some (max 1 (pyRound ((wc : ℚ) / 200)).toNat) }
    Except.ok { a4 with processed := true, processed_timestamp := some now }

/-- NewsFetcher._process_article: never raises. The first component is the
returned article; the second is the callers dict after the call, capturing
that the except branch mutates the input record in place while the success
branch works on a copy. -/
def process_article (fc : String → Option String) (nl : String → Except String String)
    (tok : String → Except String (List String)) (now : String)
    (article : Article) : Article × Article :=
  match processBody fc nl tok now article with
  | .ok r => (r, article)
  | .error e =>
    let m := { article with
                processed := true
                processed_timestamp := some now
                processing_error := some e }
    (m, m)

/-! On-disk stores and reconciliation, from news_fetcher.py. A directory is
a list of records; file names are the id fields, so a write replaces the
record with the same id or appends a new one. -/

structure FStore where
  raw : List Article
  processedDir : List Article

/-- Write of one JSON record into a directory keyed by id (the model of
_save_processed_article): overwrites the record with the same id if
present, otherwise creates it. -/
def saveToDir (dir : List Article) (a : Article) : List Article :=
  if dir.any (fun b => b.id == a.id) then
    dir.map (fun b => if b.id == a.id then a else b)
  else dir ++ [a]

/-- Ids of the records of a directory (derived from file names). -/
def idsOf (dir : List Article) : List String := dir.map (fun a => a.id)

/-- Descending-by-date stable comparison used by get_stored_articles. -/
def dateDescLe (a b : Article) : Bool := charListLe b.date.data a.date.data

/-- NewsFetcher.get_stored_articles on a directory: every record, sorted
by publication date descending (stable). -/
def get_stored_articles (dir : List Article) : List Article :=
  stableSortBy dateDescLe dir

/-- NewsFetcher.process_unprocessed_articles: sweeps the records of the
RAW directory (get_stored_articles with processed=False) and re-processes
exactly those whose processed flag is false, writing each result into the
processed directory. Returns the ids of the re-processed records (the
source counts them) and the stores afterwards. -/
def process_unprocessed_articles (fc : String → Option String)
    (nl : String → Except String String) (tok : String → Except String (List String))
    (now : String) (s : FStore) : List String × FStore :=
  (get_stored_articles s.raw).foldl (fun acc a =>
    if !a.processed then
      let pa := (process_article fc nl tok now a).1
      (acc.1 ++ [a.id], { acc.2 with processedDir := saveToDir acc.2.processedDir pa })
    else acc) ([], s)

/-- NewsFetcher.process_missing_articles: processes every id present in
the raw directory but absent from the processed directory, writing each
result into the processed directory. (On a per-id failure the source still
writes a minimal processed record with the same id, so the id sets evolve
identically on both paths.) -/
def process_missing_articles (fc : String → Option String)
    (nl : String → Except String String) (tok : String → Except String (List String))
    (now : String) (s : FStore) : List String × FStore :=
  let pids := idsOf s.processedDir
  (s.raw.filter (fun a => !(pids.contains a.id))).foldl (fun acc a =>
    let pa := (process_article fc nl tok now a).1
    (acc.1 ++ [a.id], { acc.2 with processedDir := saveToDir acc.2.processedDir pa })) ([], s)

/-- NewsFetcher.sync_raw_processed: both repair passes, then the count of
processed records carrying a processing_error. -/
def sync_raw_processed (fc : String → Option String)
    (nl : String → Except String String) (tok : String → Except String (List String))
    (now : String) (s : FStore) : (Nat × Nat) × FStore :=
  let r1 := process_missing_articles fc nl tok now s
  let r2 := process_unprocessed_articles fc nl tok now r1.2
  let errs := ((get_stored_articles r2.2.processedDir).filter
    (fun a => a.processing_error.isSome)).length
  ((r1.1.length + r2.1.length, errs), r2.2)

/-! Web query surface, from main.py. starlette HTTPException is a subclass
of Exception, so the blanket except clause of each handler catches the 404
raised inside the try block as well. -/

inductive PyExc where
  | http : Nat → String → PyExc
  | other : String → PyExc

/-- str(e) on the caught exception. -/
def strExc : PyExc → String
  | .http code detail => toString code ++ ": " ++ detail
  | .other m => m

/-- Outcome of one request: a successful payload or an HTTP error. -/
inductive HResult (α : Type) where
  | ok : α → HResult α
  | err : Nat → String → HResult α

/-- HTTP status of an outcome (FastAPI returns 200 for a plain payload). -/
def statusOf {α : Type} : HResult α → Nat
  | .ok _ => 200
  | .err s _ => s

/-- Try body of the similar-articles handler: 404 on an unknown id, then
embedding, search and corpus joins, each of which may raise. -/
def similarBody (articles : List Article) (embedQ : Article → Except String (List ℚ))
    (vs : VectorStore) (aid : String) : Except PyExc (List Article) :=
  match articles.find? (fun a => a.id == aid) with
  | none => .error (.http 404 "Article not found")
  | some qa =>
    match embedQ qa with
    | .error e => .error (.other e)
    | .ok emb =>
      match vs.search_similar emb 5 with
      | none => .error (.other "IndexError")
      | some ids =>
        match traverseOpt (dictGet articles) (ids.filter (fun x => x ≠ aid)) with
        | none => .error (.other "KeyError")
        | some sims => .ok sims

/-- The similar-articles handler: the blanket except converts every raised
exception, the 404 HTTPException included, into a 500 response. -/
def similarEndpoint (articles : List Article) (embedQ : Article → Except String (List ℚ))
    (vs : VectorStore) (aid : String) : HResult (List Article) :=
  match similarBody articles embedQ vs aid with
  | .ok v => .ok v
  | .error e => .err 500 (strExc e)

/-- Try body of the analyze-article handler: 404 on an unknown id, then
the LLM collaborator, which may raise. -/
def analyzeBody (articles : List Article) (analyze : Article → Except String String)
    (aid : String) : Except PyExc (Article × String) :=
  match articles.find? (fun a => a.id == aid) with
  | none => .error (.http 404 "Article not found")
  | some a =>
    match analyze a with
    | .error e => .error (.other e)
    | .ok res => .ok (a, res)

/-- The analyze-article handler, with the same blanket except. -/
def analyzeEndpoint (articles : List Article) (analyze : Article → Except String String)
    (aid : String) : HResult (Article × String) :=
  match analyzeBody articles analyze aid with
  | .ok v => .ok v
  | .error e => .err 500 (strExc e)

/-! Concrete inputs used by witnesses and counterexamples. -/

def artA : Article := { id := "a" }

def artB : Article := { id := "b" }

def fc0 : String → Option String := fun _ => none

def nl0 : String → Except String String := fun _ => Except.ok "dom"

def nlBad : String → Except String String := fun _ => Except.error "boom"

def tok0 : String → Except String (List String) := fun _ => Except.ok []

/-- A ten-word sentence, in the summarizer bonus band. -/
def sentA : String := "w w w w w w w w w w"

/-- Another ten-word sentence, distinct from sentA. -/
def sentC : String := "c c c c c c c c c c"

/-- Five sentences in which sentA occurs at positions 0 and 4. -/
def sentList : List String := [sentA, "b", sentC, "d", sentA]

def tokFive : String → Except String (List String) := fun _ => Except.ok sentList

/-- An index holding three embeddings for ids x, y, z, at distances
0, 1 and 4 from the zero query. -/
def store3 : VectorStore :=
  { dimension := 2, embeddings := [[0, 0], [1, 0], [2, 0]], article_ids := ["x", "y", "z"] }

def embBad : Article → Except String (List ℚ) := fun _ => Except.error "embedding down"

def anaBad : Article → Except String String := fun _ => Except.error "llm down"

def embNone : Article → Option (List ℚ) := fun _ => none

/-- A store whose processed directory holds an id absent from raw. -/
def storeCE : FStore := { raw := [], processedDir := [artA] }

/-- A store with one never-processed raw record and an unrelated
processed-directory record whose flag is false. -/
def storeC4 : FStore := { raw := [artA], processedDir := [artB] }

/-- A store with processed ids strictly contained in raw ids. -/
def storeW : FStore := { raw := [artA, artB], processedDir := [artA] }

/-! Helper lemmas about the stable sort. -/

theorem mem_stableIns {α : Type} (le : α → α → Bool) (x z : α) (l : List α) :
    z ∈ stableIns le x l ↔ z = x ∨ z ∈ l := by
  induction l with
  | nil => simp [stableIns]
  | cons y ys ih =>
    simp only [stableIns]
    split
    · rw [List.mem_cons, ih, List.mem_cons]
      tauto
    · rw [List.mem_cons]

theorem stableIns_perm {α : Type} (le : α → α → Bool) (x : α) (l : List α) :
    (stableIns le x l).Perm (x :: l) := by
  induction l with
  | nil => simp [stableIns]
  | cons y ys ih =>
    simp only [stableIns]
    split
    · exact (ih.cons y).trans (List.Perm.swap x y ys)
    · exact List.Perm.refl _

theorem stableSortBy_perm {α : Type} (le : α → α → Bool) (l : List α) :
    (stableSortBy le l).Perm l := by
  induction l with
  | nil => simp [stableSortBy]
  | cons x xs ih =>
    have h1 : stableSortBy le (x :: xs) = stableIns le x (stableSortBy le xs) := rfl
    rw [h1]
    exact ((stableIns_perm le x (stableSortBy le xs)).trans (ih.cons x))

theorem pairwise_stableIns {α : Type} (le : α → α → Bool)
    (htrans : ∀ a b c, le a b = true → le b c = true → le a c = true)
    (htot : ∀ a b, le a b = true ∨ le b a = true) (x : α) (l : List α)
    (hl : l.Pairwise (fun a b => le a b = true)) :
    (stableIns le x l).Pairwise (fun a b => le a b = true) := by
  induction l with
  | nil => simp [stableIns]
  | cons y ys ih =>
    rcases List.pairwise_cons.mp hl with ⟨hy, hys⟩
    simp only [stableIns]
    split
    · rename_i hcond
      have hyx : le y x = true := by
        revert hcond
        cases le y x <;> simp
      refine List.pairwise_cons.mpr ⟨?_, ih hys⟩
      intro z hz
      rcases (mem_stableIns le x z ys).mp hz with hzx | hzy
      · subst hzx; exact hyx
      · exact hy z hzy
    · rename_i hcond
      have hxy : le x y = true := by
        rcases htot x y with h | h
        · exact h
        · by_cases hxy2 : le x y = true
          · exact hxy2
          · exfalso
            have hf : le x y = false := by
              revert hxy2
              cases le x y <;> simp
            exact hcond (by rw [h, hf]; rfl)
      refine List.pairwise_cons.mpr ⟨?_, hl⟩
      intro z hz
      rcases List.mem_cons.mp hz with hzy | hzys
      · subst hzy; exact hxy
      · exact htrans x y z hxy (hy z hzys)

theorem stableSortBy_pairwise {α : Type} (le : α → α → Bool)
    (htrans : ∀ a b c, le a b = true → le b c = true → le a c = true)
    (htot : ∀ a b, le a b = true ∨ le b a = true) (l : List α) :
    (stableSortBy le l).Pairwise (fun a b => le a b = true) := by
  induction l with
  | nil => simp [stableSortBy]
  | cons x xs ih => exact pairwise_stableIns le htrans htot x _ ih

/-! Helper lemmas about traverseOpt. -/

theorem traverseOpt_append {α β : Type} (f : α → Option β) (l1 l2 : List α)
    (r1 r2 : List β) (h1 : traverseOpt f l1 = some r1)
    (h2 : traverseOpt f l2 = some r2) :
    traverseOpt f (l1 ++ l2) = some (r1 ++ r2) := by
  induction l1 generalizing r1 with
  | nil =>
    simp only [traverseOpt] at h1
    cases h1
    simpa using h2
  | cons x xs ih =>
    simp only [traverseOpt] at h1
    cases hx : f x with
    | none => simp [hx] at h1
    | some y =>
      cases hxs : traverseOpt f xs with
      | none => simp [hx, hxs] at h1
      | some ys =>
        rw [hx, hxs] at h1
        cases h1
        rw [List.cons_append]
        simp only [traverseOpt, hx, ih ys hxs]
        rfl

theorem traverseOpt_replicate {α β : Type} (f : α → Option β) (c : α) (v : β)
    (h : f c = some v) (m : Nat) :
    traverseOpt f (List.replicate m c) = some (List.replicate m v) := by
  induction m with
  | zero => simp [traverseOpt]
  | succ n ih => simp [List.replicate_succ, traverseOpt, h, ih]

theorem traverseOpt_map_some {α β γ : Type} (f : β → Option γ) (g : α → β)
    (h : α → γ) (l : List α) (hl : ∀ x ∈ l, f (g x) = some (h x)) :
    traverseOpt f (l.map g) = some (l.map h) := by
  induction l with
  | nil => simp [traverseOpt]
  | cons x xs ih =>
    have hx : f (g x) = some (h x) := hl x (List.mem_cons_self x xs)
    have hxs : traverseOpt f (xs.map g) = some (xs.map h) :=
      ih (fun y hy => hl y (List.mem_cons_of_mem x hy))
    simp [traverseOpt, hx, hxs]

theorem traverseOpt_mem {α β : Type} (f : α → Option β) (xs : List α)
    (ys : List β) (h : traverseOpt f xs = some ys) (y : β) (hy : y ∈ ys) :
    ∃ x ∈ xs, f x = some y := by
  induction xs generalizing ys with
  | nil =>
    simp only [traverseOpt] at h
    cases h
    simp at hy
  | cons x xs ih =>
    simp only [traverseOpt] at h
    cases hx : f x with
    | none => simp [hx] at h
    | some z =>
      cases hxs : traverseOpt f xs with
      | none => simp [hx, hxs] at h
      | some zs =>
        rw [hx, hxs] at h
        cases h
        rcases List.mem_cons.mp hy with hyz | hyzs
        · exact ⟨x, List.mem_cons_self x xs, by rw [hx, hyz]⟩
        · rcases ih zs hxs hyzs with ⟨w, hw1, hw2⟩
          exact ⟨w, List.mem_cons_of_mem x hw1, hw2⟩

theorem traverseOpt_length {α β : Type} (f : α → Option β) (xs : List α)
    (ys : List β) (h : traverseOpt f xs = some ys) : ys.length = xs.length := by
  induction xs generalizing ys with
  | nil => simp only [traverseOpt] at h; cases h; rfl
  | cons x xs ih =>
    simp only [traverseOpt] at h
    cases hx : f x with
    | none => simp [hx] at h
    | some z =>
      cases hxs : traverseOpt f xs with
      | none => simp [hx, hxs] at h
      | some zs =>
        rw [hx, hxs] at h
        cases h
        simp [ih zs hxs]

/-! Helper lemmas about list indexing. -/

theorem map_getD_range {α : Type} (l : List α) (d : α) :
    (List.range l.length).map (fun i => l.getD i d) = l := by
  apply List.ext_getElem
  · simp
  · intro n h1 h2
    simp only [List.getElem_map, List.getElem_range]
    rw [List.getD_eq_getElem?_getD, List.getElem?_eq_getElem h2]
    rfl

theorem pyGet_ofNat {α : Type} (l : List α) (i : Nat) (h : i < l.length) (d : α) :
    pyGet l (Int.ofNat i) = some (l.getD i d) := by
  simp only [pyGet, Int.ofNat_eq_coe]
  rw [if_pos (Int.ofNat_nonneg i)]
  rw [List.get?_eq_getElem?, List.getElem?_eq_getElem (by simpa using h)]
  rw [List.getD_eq_getElem?_getD, List.getElem?_eq_getElem h]
  simp

theorem pyGet_negOne {α : Type} (l : List α) (h : l ≠ []) (d : α) :
    pyGet l (-1) = some (l.getLastD d) := by
  have hlen : 0 < l.length := List.length_pos.mpr h
  simp only [pyGet]
  rw [if_neg (by decide)]
  rw [if_pos (by simpa using hlen)]
  have h1 : ((-(-1 : ℤ)).toNat) = 1 := by decide
  rw [h1]
  rw [← List.getLast?_eq_get?]
  rw [List.getLastD_eq_getLast?]
  cases hl : l.getLast? with
  | none =>
    exfalso
    exact h (List.getLast?_eq_none_iff.mp hl)
  | some a => rfl

/-! Helper lemmas about the enrichment step. -/

theorem processBody_ok_fields (fc : String → Option String)
    (nl : String → Except String String) (tok : String → Except String (List String))
    (now : String) (a r : Article) (h : processBody fc nl tok now a = Except.ok r) :
    r.id = a.id ∧ r.processed = true ∧ r.processed_timestamp = some now := by
  simp only [processBody] at h
  split at h
  · cases h
  · rename_i dv heq
    injection h with h2
    subst h2
    refine ⟨?_, ?_, ?_⟩ <;> (repeat' split) <;> simp

theorem process_article_id (fc : String → Option String)
    (nl : String → Except String String) (tok : String → Except String (List String))
    (now : String) (a : Article) :
    ((process_article fc nl tok now a).1).id = a.id := by
  cases hb : processBody fc nl tok now a with
  | ok r =>
    have h1 : (process_article fc nl tok now a).1 = r := by
      unfold process_article
      rw [hb]
    rw [h1]
    exact (processBody_ok_fields fc nl tok now a r hb).1
  | error e =>
    have h1 : (process_article fc nl tok now a).1 = { a with processed := true, processed_timestamp := some now, processing_error := some e } := by
      unfold process_article
      rw [hb]
    rw [h1]

/-! Helper lemmas about directories keyed by id. -/

theorem mem_idsOf (dir : List Article) (x : String) :
    x ∈ idsOf dir ↔ ∃ a ∈ dir, a.id = x := by
  simp only [idsOf, List.mem_map]

theorem mem_idsOf_saveToDir (dir : List Article) (a : Article) (x : String) :
    x ∈ idsOf (saveToDir dir a) ↔ x = a.id ∨ x ∈ idsOf dir := by
  unfold saveToDir
  split
  · rename_i hany
    simp only [idsOf, List.map_map, List.mem_map, Function.comp_apply]
    constructor
    · rintro ⟨b, hb, rfl⟩
      by_cases hid : (b.id == a.id) = true
      · left
        simp [hid]
      · right
        exact ⟨b, hb, by simp [hid]⟩
    · rintro (rfl | ⟨b, hb, rfl⟩)
      · rcases List.any_eq_true.mp hany with ⟨b, hb, hbid⟩
        exact ⟨b, hb, by simp [hbid]⟩
      · by_cases hid : (b.id == a.id) = true
        · exact ⟨b, hb, by simp [hid, eq_of_beq hid]⟩
        · exact ⟨b, hb, by simp [hid]⟩
  · simp only [idsOf, List.map_append, List.mem_append, List.map_cons, List.map_nil,
      List.mem_singleton]
    tauto

/-! Characterization of the reconciliation folds. -/

theorem missFold_spec (fc : String → Option String)
    (nl : String → Except String String) (tok : String → Except String (List String))
    (now : String) (arts : List Article) (acc : List String × FStore) :
    let step := fun (acc : List String × FStore) (a : Article) =>
      let pa := (process_article fc nl tok now a).1
      (acc.1 ++ [a.id], { acc.2 with processedDir := saveToDir acc.2.processedDir pa })
    (arts.foldl step acc).1 = acc.1 ++ arts.map (fun a => a.id)
    ∧ (arts.foldl step acc).2.raw = acc.2.raw
    ∧ (∀ x, x ∈ idsOf (arts.foldl step acc).2.processedDir ↔
        (∃ a ∈ arts, a.id = x) ∨ x ∈ idsOf acc.2.processedDir) := by
  induction arts generalizing acc with
  | nil => simp
  | cons a as ih =>
    intro step
    have hstep : (a :: as).foldl step acc = as.foldl step (step acc a) := rfl
    rcases ih (step acc a) with ⟨ih1, ih2, ih3⟩
    refine ⟨?_, ?_, ?_⟩
    · rw [hstep, ih1]
      simp [step]
    · rw [hstep, ih2]
    · intro x
      rw [hstep, ih3 x]
      have hsave : x ∈ idsOf (step acc a).2.processedDir ↔
          x = a.id ∨ x ∈ idsOf acc.2.processedDir := by
        have := mem_idsOf_saveToDir acc.2.processedDir
          ((process_article fc nl tok now a).1) x
        rw [process_article_id] at this
        exact this
      rw [hsave]
      simp only [List.mem_cons]
      constructor
      · rintro (⟨b, hb, rfl⟩ | rfl | hx)
        · exact Or.inl ⟨b, Or.inr hb, rfl⟩
        · exact Or.inl ⟨a, Or.inl rfl, rfl⟩
        · exact Or.inr hx
      · rintro (⟨b, rfl | hb, rfl⟩ | hx)
        · exact Or.inr (Or.inl rfl)
        · exact Or.inl ⟨b, hb, rfl⟩
        · exact Or.inr (Or.inr hx)

theorem unprocFold_spec (fc : String → Option String)
    (nl : String → Except String String) (tok : String → Except String (List String))
    (now : String) (arts : List Article) (acc : List String × FStore) :
    let step := fun (acc : List String × FStore) (a : Article) =>
      if !a.processed then
        let pa := (process_article fc nl tok now a).1
        (acc.1 ++ [a.id], { acc.2 with processedDir := saveToDir acc.2.processedDir pa })
      else acc
    (arts.foldl step acc).1 = acc.1 ++ (arts.filter (fun a => !a.processed)).map (fun a => a.id)
    ∧ (arts.foldl step acc).2.raw = acc.2.raw
    ∧ (∀ x, x ∈ idsOf (arts.foldl step acc).2.processedDir ↔
        (∃ a ∈ arts, a.processed = false ∧ a.id = x) ∨ x ∈ idsOf acc.2.processedDir) := by
  induction arts generalizing acc with
  | nil => simp
  | cons a as ih =>
    intro step
    have hstep : (a :: as).foldl step acc = as.foldl step (step acc a) := rfl
    rcases ih (step acc a) with ⟨ih1, ih2, ih3⟩
    by_cases hp : a.processed
    · have hsa : step acc a = acc := by
        simp [step, hp]
      refine ⟨?_, ?_, ?_⟩
      · rw [hstep, ih1, hsa, List.filter_cons_of_neg (by simp [hp])]
      · rw [hstep, ih2, hsa]
      · intro x
        rw [hstep, ih3 x, hsa]
        simp only [List.mem_cons]
        constructor
        · rintro (⟨b, hb, hbp, rfl⟩ | hx)
          · exact Or.inl ⟨b, Or.inr hb, hbp, rfl⟩
          · exact Or.inr hx
        · rintro (⟨b, rfl | hb, hbp, rfl⟩ | hx)
          · rw [hp] at hbp; cases hbp
          · exact Or.inl ⟨b, hb, hbp, rfl⟩
          · exact Or.inr hx
    · have hpf : a.processed = false := by
        revert hp; cases a.processed <;> simp
      have hsa : step acc a = (acc.1 ++ [a.id], { acc.2 with processedDir := saveToDir acc.2.processedDir ((process_article fc nl tok now a).1) }) := by
        simp [step, hpf]
      refine ⟨?_, ?_, ?_⟩
      · rw [hstep, ih1, hsa, List.filter_cons_of_pos (by simp [hpf])]
        simp
      · rw [hstep, ih2, hsa]
      · intro x
        rw [hstep, ih3 x, hsa]
        have hsave : x ∈ idsOf (saveToDir acc.2.processedDir
            ((process_article fc nl tok now a).1)) ↔
            x = a.id ∨ x ∈ idsOf acc.2.processedDir := by
          have := mem_idsOf_saveToDir acc.2.processedDir
            ((process_article fc nl tok now a).1) x
          rw [process_article_id] at this
          exact this
        rw [hsave]
        simp only [List.mem_cons]
        constructor
        · rintro (⟨b, hb, hbp, rfl⟩ | rfl | hx)
          · exact Or.inl ⟨b, Or.inr hb, hbp, rfl⟩
          · exact Or.inl ⟨a, Or.inl rfl, hpf, rfl⟩
          · exact Or.inr hx
        · rintro (⟨b, rfl | hb, hbp, rfl⟩ | hx)
          · exact Or.inr (Or.inl rfl)
          · exact Or.inl ⟨b, hb, hbp, rfl⟩
          · exact Or.inr (Or.inr hx)

/-! Helper lemmas about the vector index. -/

theorem distLex_trans (ds : List ℚ) : ∀ i j k, distLex ds i j = true →
    distLex ds j k = true → distLex ds i k = true := by
  intro i j k hij hjk
  simp only [distLex, decide_eq_true_eq] at hij hjk ⊢
  rcases hij with h1 | ⟨h1, h1n⟩ <;> rcases hjk with h2 | ⟨h2, h2n⟩
  · exact Or.inl (lt_trans h1 h2)
  · exact Or.inl (h2 ▸ h1)
  · exact Or.inl (h1 ▸ h2)
  · exact Or.inr ⟨h1.trans h2, h1n.trans h2n⟩

theorem distLex_total (ds : List ℚ) : ∀ i j, distLex ds i j = true ∨ distLex ds j i = true := by
  intro i j
  simp only [distLex, decide_eq_true_eq]
  rcases lt_trichotomy (ds.getD i 0) (ds.getD j 0) with h | h | h
  · exact Or.inl (Or.inl h)
  · rcases Nat.le_total i j with hn | hn
    · exact Or.inl (Or.inr ⟨h, hn⟩)
    · exact Or.inr (Or.inr ⟨h.symm, hn⟩)
  · exact Or.inr (Or.inl h)

theorem nearestOrder_perm (embs : List (List ℚ)) (q : List ℚ) :
    (nearestOrder embs q).Perm (List.range embs.length) :=
  stableSortBy_perm _ _

theorem mem_nearestOrder (embs : List (List ℚ)) (q : List ℚ) (i : Nat)
    (h : i ∈ nearestOrder embs q) : i < embs.length := by
  have := (nearestOrder_perm embs q).mem_iff.mp h
  exact List.mem_range.mp this

theorem nearestIds_perm (s : VectorStore)
    (hw : s.article_ids.length = s.embeddings.length) (q : List ℚ) :
    (nearestIds s q).Perm s.article_ids := by
  unfold nearestIds
  have h1 : ((List.range s.embeddings.length).map
      (fun i => s.article_ids.getD i "")).Perm s.article_ids := by
    rw [← hw, map_getD_range]
  exact ((nearestOrder_perm s.embeddings q).map _).trans h1

theorem nearestOrder_sorted (embs : List (List ℚ)) (q : List ℚ) :
    (nearestOrder embs q).Pairwise
      (fun i j => sqDist q (embs.getD i []) ≤ sqDist q (embs.getD j [])) := by
  have hp := stableSortBy_pairwise (distLex (embs.map (sqDist q)))
    (distLex_trans _) (distLex_total _) (List.range embs.length)
  have hmem : ∀ i, i ∈ nearestOrder embs q → i < embs.length := mem_nearestOrder embs q
  refine List.Pairwise.imp_of_mem ?_ hp
  intro i j hi hj hij
  have hilt := hmem i hi
  have hjlt := hmem j hj
  simp only [distLex, decide_eq_true_eq] at hij
  have hdi : (embs.map (sqDist q)).getD i 0 = sqDist q (embs.getD i []) := by
    rw [List.getD_eq_getElem?_getD, List.getD_eq_getElem?_getD,
      List.getElem?_eq_getElem (by simpa using hilt), List.getElem?_eq_getElem hilt]
    simp
  have hdj : (embs.map (sqDist q)).getD j 0 = sqDist q (embs.getD j []) := by
    rw [List.getD_eq_getElem?_getD, List.getD_eq_getElem?_getD,
      List.getElem?_eq_getElem (by simpa using hjlt), List.getElem?_eq_getElem hjlt]
    simp
  rw [hdi, hdj] at hij
  rcases hij with h | ⟨h, _⟩
  · exact le_of_lt h
  · exact le_of_eq h

theorem search_similar_nonempty (s : VectorStore)
    (hw : s.article_ids.length = s.embeddings.length) (q : List ℚ)
    (hq : q.length = s.dimension) (k : Nat) (hne : s.article_ids ≠ []) :
    s.search_similar q k =
      some ((nearestIds s q).take k ++
        List.replicate (k - s.article_ids.length) (s.article_ids.getLastD "")) := by
  unfold VectorStore.search_similar
  rw [if_pos hq]
  unfold searchIndices
  have h1 : traverseOpt (pyGet s.article_ids)
      (((nearestOrder s.embeddings q).take k).map Int.ofNat) =
      some (((nearestOrder s.embeddings q).take k).map
        (fun i => s.article_ids.getD i "")) := by
    apply traverseOpt_map_some
    intro i hi
    have hlt : i < s.embeddings.length :=
      mem_nearestOrder s.embeddings q i (List.mem_of_mem_take hi)
    exact pyGet_ofNat s.article_ids i (by rw [hw]; exact hlt) ""
  have h2 : traverseOpt (pyGet s.article_ids)
      (List.replicate (k - s.embeddings.length) (-1 : ℤ)) =
      some (List.replicate (k - s.embeddings.length) (s.article_ids.getLastD "")) := by
    exact traverseOpt_replicate _ _ _ (pyGet_negOne s.article_ids hne "") _
  rw [traverseOpt_append _ _ _ _ _ h1 h2]
  rw [← hw]
  rw [List.map_take]
  rfl

theorem search_similar_empty_ids (s : VectorStore)
    (hw : s.article_ids.length = s.embeddings.length) (q : List ℚ)
    (hq : q.length = s.dimension) (k : Nat) (hids : s.article_ids = [])
    (hk : 1 ≤ k) : s.search_similar q k = none := by
  unfold VectorStore.search_similar
  rw [if_pos hq]
  have hlen : s.embeddings.length = 0 := by
    rw [← hw, hids]
    rfl
  unfold searchIndices
  rw [hlen]
  have horder : nearestOrder s.embeddings q = [] := by
    unfold nearestOrder
    rw [hlen]
    rfl
  rw [horder]
  have hnone : pyGet s.article_ids (-1 : ℤ) = none := by
    rw [hids]
    rfl
  cases k with
  | zero => cases hk
  | succ m =>
    have hrep : (m + 1) - 0 = m + 1 := rfl
    rw [hrep, List.replicate_succ]
    simp [traverseOpt, hnone]

/-! Helper lemmas about operation sequences on the vector store. -/

theorem runOps_good (dim : Nat) (ops : List VOp)
    (h : ∀ op ∈ ops, goodOp dim op = true) :
    ∀ (s : VectorStore) (ps : List (String × List ℚ)), s.dimension = dim →
      s.article_ids = ps.map Prod.fst → s.embeddings = ps.map Prod.snd →
      (runOps s ops).dimension = dim
      ∧ (runOps s ops).article_ids =
          (ops.foldl (fun acc op => match op with
            | VOp.clearOp => []
            | VOp.addBatch b => acc ++ b) ps).map Prod.fst
      ∧ (runOps s ops).embeddings =
          (ops.foldl (fun acc op => match op with
            | VOp.clearOp => []
            | VOp.addBatch b => acc ++ b) ps).map Prod.snd := by
  induction ops with
  | nil =>
    intro s ps hdim hids hembs
    exact ⟨hdim, hids, hembs⟩
  | cons op rest ih =>
    intro s ps hdim hids hembs
    have hrest : ∀ o ∈ rest, goodOp dim o = true :=
      fun o ho => h o (List.mem_cons_of_mem op ho)
    have hop : goodOp dim op = true := h op (List.mem_cons_self op rest)
    cases op with
    | clearOp =>
      have hstep : runOps s (VOp.clearOp :: rest) = runOps (s.clear) rest := rfl
      rw [hstep]
      have hc : s.clear = VectorStore.empty s.dimension := rfl
      rcases ih hrest s.clear [] (by rw [hc, hdim]; rfl) rfl rfl with ⟨ih1, ih2, ih3⟩
      exact ⟨ih1, ih2, ih3⟩
    | addBatch b =>
      have hcond : (!b.isEmpty && b.all (fun p => p.2.length == s.dimension)) = true := by
        rw [hdim]
        exact hop
      have hadd : (s.add_articles b).1 =
          { s with article_ids := s.article_ids ++ b.map Prod.fst,
                   embeddings := s.embeddings ++ b.map Prod.snd } := by
        unfold VectorStore.add_articles
        rw [hcond]
        rfl
      have hstep : runOps s (VOp.addBatch b :: rest) = runOps (s.add_articles b).1 rest := rfl
      rw [hstep, hadd]
      exact ih hrest _ (ps ++ b) hdim (by rw [hids, List.map_append])
        (by rw [hembs, List.map_append])

/-! Helper lemmas about the identifier hash. -/

theorem md5Bytes_length (msg : List Nat) : (md5Bytes msg).length = 16 := by
  unfold md5Bytes
  simp [wordLE]

theorem md5Hex_length (s : String) : (md5Hex s).length = 32 := by
  unfold md5Hex
  rw [String.length_mk, List.length_flatMap]
  have hcomp : (List.length ∘ byteHex) = fun _ : Nat => 2 := by
    funext b
    rfl
  rw [hcomp, List.map_const', List.sum_replicate, md5Bytes_length]
  rfl

/-- Every digit the digest printer emits lies in the hex alphabet. -/
theorem hexChar_mem (n : Nat) : hexChar n ∈ hexDigits := by
  unfold hexChar
  rw [List.getD_eq_getElem?_getD]
  cases h : hexDigits[n]? with
  | none =>
    show '0' ∈ hexDigits
    decide
  | some c =>
    have := List.getElem?_mem h
    simpa using this

theorem md5Hex_chars (s : String) (c : Char) (h : c ∈ (md5Hex s).data) :
    c ∈ hexDigits := by
  unfold md5Hex at h
  simp only [List.mem_flatMap] at h
  rcases h with ⟨b, _, hc⟩
  simp only [byteHex, List.mem_cons, List.mem_singleton] at hc
  rcases hc with rfl | rfl | hfalse
  · exact hexChar_mem _
  · exact hexChar_mem _
  · cases hfalse

/-! Helper lemma about the corpus dict of the recommender. -/

theorem dictGet_id (articles : List Article) (aid : String) (a : Article)
    (h : dictGet articles aid = some a) : a.id = aid := by
  unfold dictGet at h
  have := List.find?_some h
  simpa using this

/-! Claim theorems. -/

/-- C6: for every input article and every behavior of the collaborators,
the enrichment step never propagates an exception (process_article is a
total function), the returned article always has processed set to true and
a processing timestamp, and when the try body raises the returned article
additionally carries the exception text in processing_error. -/
theorem claim_C6_enrichment_total (fc : String → Option String)
    (nl : String → Except String String) (tok : String → Except String (List String))
    (now : String) (a : Article) :
    ((process_article fc nl tok now a).1).processed = true
  ∧ ((process_article fc nl tok now a).1).processed_timestamp = some now
  ∧ (∀ e, processBody fc nl tok now a = Except.error e →
      ((process_article fc nl tok now a).1).processing_error = some e) := by
  cases hb : processBody fc nl tok now a with
  | ok r =>
    have h1 : (process_article fc nl tok now a).1 = r := by
      unfold process_article
      rw [hb]
    rcases processBody_ok_fields fc nl tok now a r hb with ⟨-, h2, h3⟩
    refine ⟨by rw [h1]; exact h2, by rw [h1]; exact h3, ?_⟩
    intro e he
    exact Except.noConfusion he
  | error e0 =>
    have h1 : (process_article fc nl tok now a).1 = { a with processed := true, processed_timestamp := some now, processing_error := some e0 } := by
      unfold process_article
      rw [hb]
    refine ⟨by rw [h1], by rw [h1], ?_⟩
    intro e he
    injection he with h2
    rw [h1, h2]

/-- C6 witness: the enrichment result at a concrete article whose netloc
extraction raises is still marked processed, stamped, and carries the
error text. -/
theorem claim_C6_witness :
    ((process_article fc0 nlBad tok0 "t" { artA with source := "s" }).1).processed = true
  ∧ ((process_article fc0 nlBad tok0 "t" { artA with source := "s" }).1).processed_timestamp = some "t"
  ∧ ((process_article fc0 nlBad tok0 "t" { artA with source := "s" }).1).processing_error = some "boom" := by
  have h := claim_C6_enrichment_total fc0 nlBad tok0 "t" { artA with source := "s" }
  exact ⟨h.1, h.2.1, h.2.2 "boom" rfl⟩

/-- C10: when the try body of the enrichment step succeeds, the callers
input record is returned unchanged (the work happened on a copy); only
when the body raises is the input record mutated in place, receiving
exactly the processed flag, the timestamp and the error text. -/
theorem claim_C10_enrichment_frame (fc : String → Option String)
    (nl : String → Except String String) (tok : String → Except String (List String))
    (now : String) (a : Article) :
    (∀ r, processBody fc nl tok now a = Except.ok r →
      (process_article fc nl tok now a).2 = a)
  ∧ (∀ e, processBody fc nl tok now a = Except.error e →
      (process_article fc nl tok now a).2 = { a with processed := true, processed_timestamp := some now, processing_error := some e }) := by
  constructor
  · intro r hr
    unfold process_article
    rw [hr]
  · intro e he
    unfold process_article
    rw [he]

/-- C10 witness: concrete success and failure runs of the enrichment step,
applying the frame theorem on both paths. -/
theorem claim_C10_witness :
    (process_article fc0 nl0 tok0 "t" artA).2 = artA
  ∧ (process_article fc0 nlBad tok0 "t" { artA with source := "s" }).2 = { { artA with source := "s" } with processed := true, processed_timestamp := some "t", processing_error := some "boom" } := by
  constructor
  · exact (claim_C10_enrichment_frame fc0 nl0 tok0 "t" artA).1
      ((process_article fc0 nl0 tok0 "t" artA).1) rfl
  · exact (claim_C10_enrichment_frame fc0 nlBad tok0 "t" { artA with source := "s" }).2
      "boom" rfl

/-- C8: whenever the recommender returns a result list, that list never
contains an article whose id is the query id, and its length is at most k. -/
theorem claim_C8_recommender_excludes (vs : VectorStore)
    (embedQ : Article → Option (List ℚ)) (q : String) (articles : List Article)
    (k : Nat) (l : List Article)
    (h : Recommender.get_similar_articles vs embedQ q articles k = some l) :
    l.length ≤ k ∧ ∀ a ∈ l, a.id ≠ q := by
  unfold Recommender.get_similar_articles at h
  split at h
  · injection h with h1
    subst h1
    exact ⟨Nat.zero_le k, by intro a ha; cases ha⟩
  · split at h
    · exact Option.noConfusion h
    · split at h
      · exact Option.noConfusion h
      · split at h
        · exact Option.noConfusion h
        · rename_i sims ht
          injection h with h1
          subst h1
          refine ⟨List.length_take_le k sims, ?_⟩
          intro a ha
          have hmem := List.mem_of_mem_take ha
          rcases traverseOpt_mem _ _ _ ht a hmem with ⟨aid, haid, hsome⟩
          have hne : aid ≠ q := by
            rcases List.mem_filter.mp haid with ⟨-, hf⟩
            simpa using hf
          rw [dictGet_id articles aid a hsome]
          exact hne

/-- C8 witness: the recommender on an empty corpus returns the empty list,
which satisfies both bounds. -/
theorem claim_C8_witness :
    (([] : List Article).length ≤ 5) ∧ ∀ a ∈ ([] : List Article), a.id ≠ "q" :=
  claim_C8_recommender_excludes (VectorStore.empty 2) embNone "q" [] 5 [] rfl

/-- C9 counterexample: two distinct (title, date) pairs whose
concatenations coincide always receive the same identifier, refuting
collision-freedom over distinct pairs. -/
theorem claim_C9_counterexample :
    ("ab", "c") ≠ ("a", "bc")
  ∧ generate_article_id "ab" "c" = generate_article_id "a" "bc" := by
  constructor
  · decide
  · rfl

/-- C9 (amended): assignIdentity is a pure function of (title, date):
repeated calls agree, the identifier is always a 32-character lowercase
hex string, and the identifier depends only on the concatenation
title ++ date, so pairs with equal concatenation always collide while the
stated near-injectivity can only hold for pairs with distinct
concatenations. -/
theorem claim_C9_identity (t d : String) :
    generate_article_id t d = generate_article_id t d
  ∧ (generate_article_id t d).length = 32
  ∧ (∀ c ∈ (generate_article_id t d).data, c ∈ hexDigits)
  ∧ (∀ t2 d2, t ++ d = t2 ++ d2 → generate_article_id t d = generate_article_id t2 d2) := by
  refine ⟨rfl, md5Hex_length _, fun c hc => md5Hex_chars _ c hc, ?_⟩
  intro t2 d2 hcat
  unfold generate_article_id
  rw [hcat]

/-- C9 witness: the identity theorem applied at a concrete pair, with the
concatenation hypothesis discharged at a second concrete pair. -/
theorem claim_C9_witness :
    (generate_article_id "ab" "c").length = 32
  ∧ generate_article_id "ab" "c" = generate_article_id "a" "bc" :=
  ⟨(claim_C9_identity "ab" "c").2.1,
   (claim_C9_identity "ab" "c").2.2.2 "a" "bc" rfl⟩

/-- C3: the handlers raise the distinct 404 on an unknown identifier, but
the blanket except clause catches that HTTPException (a subclass of
Exception) and re-raises it as a 500, so the response observed for an
unknown id is 500, not 404: the not-found signal IS converted into the
server-error signal, against the stated design. -/
theorem claim_C3_not_found_becomes_500 :
    similarBody [artA] embBad (VectorStore.empty 2) "zzz" = Except.error (PyExc.http 404 "Article not found")
  ∧ statusOf (similarEndpoint [artA] embBad (VectorStore.empty 2) "zzz") = 500
  ∧ analyzeBody [artA] anaBad "zzz" = Except.error (PyExc.http 404 "Article not found")
  ∧ statusOf (analyzeEndpoint [artA] anaBad "zzz") = 500
  ∧ (500 : Nat) ≠ 404 := by
  exact ⟨rfl, rfl, rfl, rfl, by decide⟩

/-- C7 counterexample: an addBatch whose single embedding mismatches the
configured dimension is rejected by the index, yet the id list was already
extended, so afterwards the id count is 1 while the embedding count is 0. -/
theorem claim_C7_counterexample :
    (((VectorStore.empty 2).add_articles [("a", [(1 : ℚ)])]).2 = false)
  ∧ ((runOps (VectorStore.empty 2) [VOp.addBatch [("a", [(1 : ℚ)])]]).article_ids.length = 1)
  ∧ ((runOps (VectorStore.empty 2) [VOp.addBatch [("a", [(1 : ℚ)])]]).embeddings.length = 0)
  ∧ (1 : Nat) ≠ 0 := by
  exact ⟨rfl, rfl, rfl, by decide⟩

/-- C7 (amended): over every operation sequence consisting of clears and
ACCEPTED addBatch calls (nonempty batches whose embeddings all have the
configured dimension), the index invariant holds: the id and embedding
sequences have equal length and position i of both belongs to the same
batch entry; a rejected batch, however, breaks the invariant by extending
only the id list. -/
theorem claim_C7_invariant (dim : Nat) (ops : List VOp)
    (h : ∀ op ∈ ops, goodOp dim op = true) :
    (runOps (VectorStore.empty dim) ops).article_ids.length =
      (runOps (VectorStore.empty dim) ops).embeddings.length
  ∧ (runOps (VectorStore.empty dim) ops).article_ids.zip
      ((runOps (VectorStore.empty dim) ops).embeddings) = opPairs ops := by
  rcases runOps_good dim ops h (VectorStore.empty dim) [] rfl rfl rfl with ⟨-, h2, h3⟩
  have hpairs : opPairs ops = ops.foldl (fun acc op => match op with
    | VOp.clearOp => []
    | VOp.addBatch b => acc ++ b) [] := rfl
  constructor
  · rw [h2, h3]
    simp
  · rw [h2, h3, hpairs, List.zip_map']
    simp

/-- C7 witness: a clear followed by one accepted two-article batch keeps
the parallel-sequence invariant. -/
theorem claim_C7_witness :
    (runOps (VectorStore.empty 2) [VOp.clearOp, VOp.addBatch [("a", [0, 0]), ("b", [1, 1])]]).article_ids.length =
      (runOps (VectorStore.empty 2) [VOp.clearOp, VOp.addBatch [("a", [0, 0]), ("b", [1, 1])]]).embeddings.length
  ∧ (runOps (VectorStore.empty 2) [VOp.clearOp, VOp.addBatch [("a", [0, 0]), ("b", [1, 1])]]).article_ids.zip
      ((runOps (VectorStore.empty 2) [VOp.clearOp, VOp.addBatch [("a", [0, 0]), ("b", [1, 1])]]).embeddings) =
      opPairs [VOp.clearOp, VOp.addBatch [("a", [0, 0]), ("b", [1, 1])]] :=
  claim_C7_invariant 2 _ (by decide)

/-- C4 counterexample: with one never-processed raw record (id a) and a
processed-directory record with a false flag (id b), the sweep re-processes
id a, from the raw directory, not id b from the processed directory as the
claim states. -/
theorem claim_C4_counterexample :
    (process_unprocessed_articles fc0 nl0 tok0 "t" storeC4).1 = ["a"]
  ∧ idsOf (storeC4.processedDir.filter (fun a => !a.processed)) = ["b"]
  ∧ (["a"] : List String) ≠ ["b"] := by
  exact ⟨rfl, rfl, by decide⟩

/-- C4 (amended): the sweep reads the RAW directory (get_stored_articles
with processed set to false) and re-processes exactly those records whose
processed flag is false — under normal operation that is every raw record,
since raw records are persisted before enrichment with a false flag. -/
theorem claim_C4_sweeps_raw (fc : String → Option String)
    (nl : String → Except String String) (tok : String → Except String (List String))
    (now : String) (s : FStore) :
    (process_unprocessed_articles fc nl tok now s).1 =
      ((get_stored_articles s.raw).filter (fun a => !a.processed)).map (fun a => a.id) := by
  have h := unprocFold_spec fc nl tok now (get_stored_articles s.raw) ([], s)
  rcases h with ⟨h1, -, -⟩
  have hdef : process_unprocessed_articles fc nl tok now s =
      (get_stored_articles s.raw).foldl (fun acc a =>
        if !a.processed then
          let pa := (process_article fc nl tok now a).1
          (acc.1 ++ [a.id], { acc.2 with processedDir := saveToDir acc.2.processedDir pa })
        else acc) ([], s) := rfl
  rw [hdef, h1]
  rfl

theorem notContains_iff (l : List String) (x : String) :
    (!(l.contains x)) = true ↔ x ∉ l := by
  simp [List.contains]

/-- C2 counterexample: with an empty raw directory and one processed
record, sync leaves the processed identifier set at a nonempty value, so
raw and processed identifier sets differ after sync. -/
theorem claim_C2_counterexample :
    ¬ (∀ x, x ∈ idsOf (sync_raw_processed fc0 nl0 tok0 "t" storeCE).2.processedDir ↔
        x ∈ idsOf (sync_raw_processed fc0 nl0 tok0 "t" storeCE).2.raw) := by
  intro hcl
  have hstore : (sync_raw_processed fc0 nl0 tok0 "t" storeCE).2 = storeCE := rfl
  have h1 : "a" ∈ idsOf (sync_raw_processed fc0 nl0 tok0 "t" storeCE).2.processedDir := by
    rw [hstore]
    simp [idsOf, storeCE, artA]
  have h2 := (hcl "a").mp h1
  rw [hstore] at h2
  simp [idsOf, storeCE] at h2

/-- C2 (amended): sync never removes processed records, so after sync the
processed identifier set is exactly the union of the raw and the prior
processed identifier sets, and the raw store is untouched; in particular
whenever the processed ids were contained in the raw ids — the reachable
situation the spec describes — the two sets coincide after sync. -/
theorem claim_C2_sync_union (fc : String → Option String)
    (nl : String → Except String String) (tok : String → Except String (List String))
    (now : String) (s : FStore) :
    ((sync_raw_processed fc nl tok now s).2.raw = s.raw)
  ∧ (∀ x, x ∈ idsOf (sync_raw_processed fc nl tok now s).2.processedDir ↔
      x ∈ idsOf s.raw ∨ x ∈ idsOf s.processedDir)
  ∧ ((∀ y ∈ idsOf s.processedDir, y ∈ idsOf s.raw) →
      ∀ x, x ∈ idsOf (sync_raw_processed fc nl tok now s).2.processedDir ↔
        x ∈ idsOf s.raw) := by
  have hm := missFold_spec fc nl tok now
    (s.raw.filter (fun a => !((idsOf s.processedDir).contains a.id))) ([], s)
  rcases hm with ⟨-, hm2, hm3⟩
  have hraw1 : (process_missing_articles fc nl tok now s).2.raw = s.raw := hm2
  have hids1 : ∀ x, x ∈ idsOf (process_missing_articles fc nl tok now s).2.processedDir ↔
      x ∈ idsOf s.raw ∨ x ∈ idsOf s.processedDir := by
    intro x
    have h3 := hm3 x
    constructor
    · intro hx
      rcases h3.mp hx with (⟨a, ha, rfl⟩ | hx2)
      · exact Or.inl ((mem_idsOf _ _).mpr ⟨a, (List.mem_filter.mp ha).1, rfl⟩)
      · exact Or.inr hx2
    · rintro (hx | hx)
      · by_cases hp : x ∈ idsOf s.processedDir
        · exact h3.mpr (Or.inr hp)
        · rcases (mem_idsOf _ _).mp hx with ⟨a, ha, rfl⟩
          exact h3.mpr (Or.inl ⟨a,
            List.mem_filter.mpr ⟨ha, (notContains_iff _ _).mpr hp⟩, rfl⟩)
      · exact h3.mpr (Or.inr hx)
  have hu := unprocFold_spec fc nl tok now
    (get_stored_articles (process_missing_articles fc nl tok now s).2.raw)
    ([], (process_missing_articles fc nl tok now s).2)
  rcases hu with ⟨-, hu2, hu3⟩
  have hsync : (sync_raw_processed fc nl tok now s).2 =
      (process_unprocessed_articles fc nl tok now
        (process_missing_articles fc nl tok now s).2).2 := rfl
  have hraw2 : (sync_raw_processed fc nl tok now s).2.raw = s.raw := by
    rw [hsync]
    exact hu2.trans hraw1
  have hids2 : ∀ x, x ∈ idsOf (sync_raw_processed fc nl tok now s).2.processedDir ↔
      x ∈ idsOf s.raw ∨ x ∈ idsOf s.processedDir := by
    intro x
    rw [hsync]
    have h3 := hu3 x
    constructor
    · intro hx
      rcases h3.mp hx with (⟨a, ha, -, rfl⟩ | hx2)
      · have hmem : a ∈ (process_missing_articles fc nl tok now s).2.raw :=
          (stableSortBy_perm dateDescLe _).mem_iff.mp ha
        rw [hraw1] at hmem
        exact Or.inl ((mem_idsOf _ _).mpr ⟨a, hmem, rfl⟩)
      · exact (hids1 x).mp hx2
    · intro hx
      exact h3.mpr (Or.inr ((hids1 x).mpr hx))
  refine ⟨hraw2, hids2, ?_⟩
  intro hsub x
  rw [hids2 x]
  constructor
  · rintro (hr | hp)
    · exact hr
    · exact hsub x hp
  · exact Or.inl

/-- C2 witness: the amended theorem at a concrete store whose processed
ids are strictly contained in its raw ids; sync brings the processed id
set up to the raw id set, all ids included. -/
theorem claim_C2_witness :
    ∀ x, x ∈ idsOf (sync_raw_processed fc0 nl0 tok0 "t" storeW).2.processedDir ↔
      x ∈ idsOf storeW.raw :=
  (claim_C2_sync_union fc0 nl0 tok0 "t" storeW).2.2 (by decide)

/-- C5: at a five-sentence input in which the first sentence recurs at
position 4, the selected sentences are the ones at positions 0, 2 and 4,
whose original relative order is sentA, sentC, sentA; but the code orders
the selection by list.index of the sentence TEXT (first occurrence), so it
emits sentA, sentA, sentC — the selected sentences are not emitted in
their original relative order, against both the claim and the in-code
comment about maintaining order. -/
theorem claim_C5_summarizer_order_bug :
    summarySelect sentList 3 = [sentA, sentA, sentC]
  ∧ generate_summary tokFive "full text" 3 = joinSpace [sentA, sentA, sentC]
  ∧ joinSpace [sentA, sentA, sentC] ≠ joinSpace [sentA, sentC, sentA] := by
  have hwcA : pyWordCount sentA = 10 := by decide
  have hwcB : pyWordCount "b" = 1 := by decide
  have hwcC : pyWordCount sentC = 10 := by decide
  have hwcD : pyWordCount "d" = 1 := by decide
  have hs0 : sentenceScore 0 sentA = 3 / 2 := by norm_num [sentenceScore, hwcA]
  have hs1 : sentenceScore 1 "b" = 1 / 2 := by norm_num [sentenceScore, hwcB]
  have hs2 : sentenceScore 2 sentC = 5 / 6 := by norm_num [sentenceScore, hwcC]
  have hs3 : sentenceScore 3 "d" = 1 / 4 := by norm_num [sentenceScore, hwcD]
  have hs4 : sentenceScore 4 sentA = 7 / 10 := by norm_num [sentenceScore, hwcA]
  have henum : sentList.enum = [(0, sentA), (1, "b"), (2, sentC), (3, "d"), (4, sentA)] := rfl
  have hfA : firstIdx sentList sentA = 0 := by decide
  have hfC : firstIdx sentList sentC = 2 := by decide
  have hsel : summarySelect sentList 3 = [sentA, sentA, sentC] := by
    unfold summarySelect
    rw [henum]
    norm_num [hs0, hs1, hs2, hs3, hs4, stableSortBy, stableIns, scoreDescLe, idxLe,
      hfA, hfC, List.take]
  refine ⟨hsel, ?_, by decide⟩
  unfold generate_summary tokFive
  norm_num [hsel]
  intro hcon
  exact absurd hcon (by decide)

/-- C1 (amended): for a well-formed index and a query of the configured
dimension, search returns ids ordered by ascending (squared Euclidean)
distance: the distance order is a permutation of all stored ids with
nondecreasing distances along it; when the index is nonempty the result is
the first k ids of that order, padded — when k exceeds the index size —
with k minus n copies of the LAST stored id (faiss fills missing slots
with label -1 and Python indexing reads the last element), so the ids are
k entries with duplicates rather than the n distinct ids; and on an empty
index any search with positive k raises IndexError instead of returning. -/
theorem claim_C1_search (s : VectorStore)
    (hw : s.article_ids.length = s.embeddings.length) (q : List ℚ)
    (hq : q.length = s.dimension) (k : Nat) :
    (nearestIds s q).Perm s.article_ids
  ∧ (nearestOrder s.embeddings q).Pairwise
      (fun i j => sqDist q (s.embeddings.getD i []) ≤ sqDist q (s.embeddings.getD j []))
  ∧ (s.article_ids ≠ [] → s.search_similar q k =
      some ((nearestIds s q).take k ++
        List.replicate (k - s.article_ids.length) (s.article_ids.getLastD "")))
  ∧ (s.article_ids = [] → 1 ≤ k → s.search_similar q k = none) := by
  refine ⟨nearestIds_perm s hw q, nearestOrder_sorted s.embeddings q, ?_, ?_⟩
  · intro hne
    exact search_similar_nonempty s hw q hq k hne
  · intro hids hk
    exact search_similar_empty_ids s hw q hq k hids hk

/-- C1 witness: the amended search theorem at the concrete three-article
index with k = 5. -/
theorem claim_C1_witness :
    (nearestIds store3 [0, 0]).Perm store3.article_ids
  ∧ (nearestOrder store3.embeddings [0, 0]).Pairwise
      (fun i j => sqDist [0, 0] (store3.embeddings.getD i []) ≤
        sqDist [0, 0] (store3.embeddings.getD j []))
  ∧ (store3.article_ids ≠ [] → store3.search_similar [0, 0] 5 =
      some ((nearestIds store3 [0, 0]).take 5 ++
        List.replicate (5 - store3.article_ids.length) (store3.article_ids.getLastD "")))
  ∧ (store3.article_ids = [] → 1 ≤ 5 → store3.search_similar [0, 0] 5 = none) :=
  claim_C1_search store3 rfl [0, 0] rfl 5

/-- C1 counterexample: the end-to-end scenario of the claim — three
embeddings for x, y, z, queried with the embedding of x and k = 5 —
returns five entries with the id z three times, not the three distinct
ids; and on an empty index the same call raises instead of returning. -/
theorem claim_C1_counterexample :
    store3.search_similar [0, 0] 5 = some ["x", "y", "z", "z", "z"]
  ∧ ¬ (["x", "y", "z", "z", "z"] : List String).Nodup
  ∧ (VectorStore.empty 2).search_similar [0, 0] 1 = none := by
  have hds : store3.embeddings.map (sqDist [0, 0]) = [0, 1, 4] := by
    norm_num [store3, sqDist]
  have horder : nearestOrder store3.embeddings [0, 0] = [0, 1, 2] := by
    unfold nearestOrder
    rw [hds]
    have hrange : List.range store3.embeddings.length = [0, 1, 2] := rfl
    rw [hrange]
    norm_num [stableSortBy, stableIns, distLex, List.getD]
  have hsearch := search_similar_nonempty store3 rfl [0, 0] rfl 5 (by decide)
  have hids : nearestIds store3 [0, 0] = ["x", "y", "z"] := by
    unfold nearestIds
    rw [horder]
    rfl
  refine ⟨?_, by decide, ?_⟩
  · rw [hsearch, hids]
    rfl
  · exact search_similar_empty_ids (VectorStore.empty 2) rfl [0, 0] rfl 1 rfl (by decide)
